import Mathlib

/-!
Verification of the repository layer of a Rust todo application
(`src/repositories/todo.rs` and its superseded flat variant
`src/repositories.rs`): the entity model, the row-folding engine
`fold_entities`, the in-memory store `TodoRepositoryForMemory`, and a model
of the Postgres-backed store `TodoRepositoryForDb`.

Conventions of the shallow embedding:
* Rust `i32` values are embedded as `Int` (ids never approach the wrap
  boundary in any statement proved here).
* Rust `Option<T>` is `Option T`; a Rust `panic!` / `.unwrap()` on `None`
  is modelled by the embedding function returning `none`.
* Fallible Rust functions returning `anyhow::Result` are embedded as
  `Except` over an explicit error type.
-/

namespace TodoApp

/-- `Label` from `src/repositories/label.rs`.  Modelled from the spec:
the file itself is not in the source tree, but the spec (§3: "Label —
id: integer ... name: non-empty string") and every use site in
`src/repositories/todo.rs` (`Label { id: .., name: .. }`) fix its shape. -/
structure Label where
  id : Int
  name : String
  deriving Repr, DecidableEq

/-- `TodoWithLabelFromRow` (`src/repositories/todo.rs` lines 17-24): one flat
outer-join row; `label_id`/`label_name` are null when the todo has no label
on this row. -/
structure TodoWithLabelFromRow where
  id : Int
  text : String
  completed : Bool
  label_id : Option Int
  label_name : Option String
  deriving Repr, DecidableEq

/-- `TodoEntity` (`src/repositories/todo.rs` lines 26-32). -/
structure TodoEntity where
  id : Int
  text : String
  completed : Bool
  labels : List Label
  deriving Repr, DecidableEq

/-- `TodoFromRow` (`src/repositories/todo.rs` lines 34-39): a bare `todos`
table row. -/
structure TodoFromRow where
  id : Int
  text : String
  completed : Bool
  deriving Repr, DecidableEq

/-- `CreateTodo` (`src/repositories/todo.rs` lines 77-86). -/
structure CreateTodo where
  text : String
  labels : List Int
  deriving Repr, DecidableEq

/-- `UpdateTodo` (`src/repositories/todo.rs` lines 88-98): all fields
optional (partial update). -/
structure UpdateTodo where
  text : Option String
  completed : Option Bool
  labels : Option (List Int)
  deriving Repr, DecidableEq

/-- `RepositoryError`.  The flat variant (`src/repositories.rs`) declares
only `NotFound(i32)`.  Modelled from the spec: the nested variant's
declaration is not in the source tree, but `src/repositories/todo.rs`
uses both `RepositoryError::NotFound(id)` and
`RepositoryError::Unexpected(msg)`, exactly the two kinds of spec §7. -/
inductive RepositoryError where
  | notFound (id : Int)
  | unexpected (msg : String)
  deriving Repr, DecidableEq

/-- The `sqlx::Error` values the code inspects: `RowNotFound` versus
everything else (carrying the backend message). -/
inductive SqlxError where
  | rowNotFound
  | other (msg : String)
  deriving Repr, DecidableEq

/-- An `anyhow::Error` escaping a repository method: either a mapped
`RepositoryError` or a raw `sqlx::Error` propagated by `?` without mapping
(as in `TodoRepositoryForDb::create`/`update`). -/
inductive DbError where
  | repo (e : RepositoryError)
  | sqlx (e : SqlxError)
  deriving Repr, DecidableEq

/-! ## The row-folding engine (`fold_entities`, todo.rs lines 41-75)

The Rust outer loop walks the rows; the inner loop walks the accumulator
and, at the first entity whose id equals the row's id, pushes
`Label { id: row.label_id.unwrap(), name: row.label_name.clone().unwrap() }`
and continues the outer loop.  Those `unwrap()` calls are unconditional:
on a row whose label fields are null but whose id is already in the
accumulator, the Rust code panics.  The embedding returns `none` there.
When no accumulator entity matches, a new entity is pushed whose label list
is `[label]` if `row.label_id.is_some()` (note: `row.label_name` is then
also `unwrap()`ed, panicking if it alone is null) and `[]` otherwise. -/

/-- The inner `while let` loop of `fold_entities`: append `l` to the label
list of the first entity whose id is `i`, leaving everything else unchanged.
It is only called when some entity matches. -/
def pushLabel : List TodoEntity → Int → Label → List TodoEntity
  | [], _, _ => []
  | t :: ts, i, l =>
    if t.id = i then { t with labels := t.labels ++ [l] } :: ts
    else t :: pushLabel ts i l

/-- `Label { id: row.label_id.unwrap(), name: row.label_name.clone().unwrap() }`:
the label a row carries, or `none` (= a panic at the `unwrap()` call sites)
when a label field is null. -/
def rowLabel (row : TodoWithLabelFromRow) : Option Label :=
  match row.label_id, row.label_name with
  | some lid, some lname => some ⟨lid, lname⟩
  | _, _ => none

/-- The outer loop of `fold_entities`, with the accumulator explicit.  In
the already-seen branch the Rust code unwraps both label fields
unconditionally (`rowLabel row = none` is the panic); in the new-entity
branch it tests `row.label_id.is_some()` and then unwraps both fields. -/
def foldGo : List TodoEntity → List TodoWithLabelFromRow → Option (List TodoEntity)
  | accum, [] => some accum
  | accum, row :: rest =>
    if row.id ∈ accum.map TodoEntity.id then
      match rowLabel row with
      | some l => foldGo (pushLabel accum row.id l) rest
      | none => none
    else
      if row.label_id.isSome then
        match rowLabel row with
        | some l => foldGo (accum ++ [⟨row.id, row.text, row.completed, [l]⟩]) rest
        | none => none
      else foldGo (accum ++ [⟨row.id, row.text, row.completed, []⟩]) rest

/-- `fold_entities` (todo.rs lines 41-75).  `none` models a panic. -/
def fold_entities (rows : List TodoWithLabelFromRow) : Option (List TodoEntity) :=
  foldGo [] rows

example :
    fold_entities
      [⟨1, "todo 1", false, some 1, some "label 1"⟩,
       ⟨1, "todo 1", false, some 2, some "label 2"⟩,
       ⟨2, "todo 2", false, some 1, some "label 2"⟩] =
    some
      [⟨1, "todo 1", false, [⟨1, "label 1"⟩, ⟨2, "label 2"⟩]⟩,
       ⟨2, "todo 2", false, [⟨1, "label 2"⟩]⟩] := by decide

example :
    fold_entities
      [⟨1, "a", false, some 1, some "L"⟩, ⟨1, "a", false, none, none⟩] = none := by
  decide

/-! ## The in-memory store (`TodoRepositoryForMemory`, todo.rs lines 463-535)

Backing structure in Rust: `HashMap<i32, TodoEntity>` behind an `RwLock`.
The embedding replaces the hash map by an association list in which `insert`
overwrites the first binding of an existing key and appends a fresh key at
the end; `HashMap::len` is the number of bindings, and `HashMap::get` the
first binding of the key.  Lock acquisition always succeeds and is not
modelled: each repository method is one atomic function on the state (the
Rust methods hold the lock for their whole body). -/

/-- The `TodoDatas = HashMap<i32, TodoEntity>` state. -/
structure MemStore where
  data : List (Int × TodoEntity)
  deriving Repr, DecidableEq

/-- `TodoRepositoryForMemory::new()`: an empty map. -/
def memNew : MemStore := ⟨[]⟩

/-- `HashMap::get`. -/
def memLookup (s : MemStore) (id : Int) : Option TodoEntity :=
  match s.data.find? (fun p => p.1 = id) with
  | some p => some p.2
  | none => none

/-- `HashMap::insert` (overwrite-or-append on the association list). -/
def memInsert : List (Int × TodoEntity) → Int → TodoEntity → List (Int × TodoEntity)
  | [], k, v => [(k, v)]
  | p :: ps, k, v => if p.1 = k then (k, v) :: ps else p :: memInsert ps k v

/-- `TodoEntity::new` (todo.rs lines 446-455): `completed = false`,
`labels = []`. -/
def TodoEntity.new (id : Int) (text : String) : TodoEntity :=
  ⟨id, text, false, []⟩

/-- `TodoRepositoryForMemory::create` (todo.rs lines 491-497):
`id = store.len() + 1`, insert `TodoEntity::new(id, payload.text)`.
Note that `payload.labels` is ignored and the stored entity's label list is
empty. -/
def memCreate (s : MemStore) (payload : CreateTodo) : TodoEntity × MemStore :=
  let id : Int := s.data.length + 1
  let todo := TodoEntity.new id payload.text
  (todo, ⟨memInsert s.data id todo⟩)

/-- `TodoRepositoryForMemory::find` (todo.rs lines 499-506). -/
def memFind (s : MemStore) (id : Int) : Except RepositoryError TodoEntity :=
  match memLookup s id with
  | some todo => .ok todo
  | none => .error (.notFound id)

/-- `TodoRepositoryForMemory::update` (todo.rs lines 513-528): merge
`payload.text`/`payload.completed` with the stored values, but
`let labels = vec![];` — the stored label list is unconditionally replaced
by the empty list, whatever `payload.labels` says. -/
def memUpdate (s : MemStore) (id : Int) (payload : UpdateTodo) :
    Except RepositoryError (TodoEntity × MemStore) :=
  match memLookup s id with
  | none => .error (.notFound id)
  | some todo =>
    let text := payload.text.getD todo.text
    let completed := payload.completed.getD todo.completed
    let labels : List Label := []
    let todo' : TodoEntity := ⟨id, text, completed, labels⟩
    .ok (todo', ⟨memInsert s.data id todo'⟩)

/-- `TodoRepositoryForMemory::delete` (todo.rs lines 530-534). -/
def memDelete (s : MemStore) (id : Int) : Except RepositoryError MemStore :=
  match memLookup s id with
  | none => .error (.notFound id)
  | some _ => .ok ⟨s.data.filter (fun p => ¬ p.1 = id)⟩

/-- Fold a list of `CreateTodo` payloads through `memCreate`, collecting the
returned entities: a Create-only operation sequence. -/
def memCreateMany (s : MemStore) : List CreateTodo → List TodoEntity × MemStore
  | [] => ([], s)
  | p :: ps =>
    let r := memCreate s p
    let rest := memCreateMany r.2 ps
    (r.1 :: rest.1, rest.2)

example : (memCreate memNew ⟨"a", []⟩).1 = ⟨1, "a", false, []⟩ := by decide

example :
    memFind (memCreate memNew ⟨"a", []⟩).2 1 = .ok ⟨1, "a", false, []⟩ := rfl

/-! ## The relational store (`TodoRepositoryForDb`, todo.rs lines 100-262)

The backend is modelled as an explicit database state (tables `todos`,
`labels`, `todo_labels`, plus the serial sequence behind `todos.id`) against
a healthy connection: statements fail only for reasons visible in the data
(the foreign-key constraint, `fetch_one` on zero rows, the malformed query
in `find`), never for connection-level reasons.

A crucial feature of the source is preserved by the model: every statement
in `create`, `update` and `delete` is executed on `&self.pool`, not on the
transaction handle returned by `self.pool.begin()`.  Each statement
therefore takes effect immediately (auto-commit), and `tx.commit()` commits
an empty transaction.  The model consequently applies each statement's
effect directly to the state and treats begin/commit as no-ops. -/

/-- The relational backend's state. -/
structure DbState where
  todos : List TodoFromRow
  nextId : Int
  labels : List Label
  todo_labels : List (Int × Int)
  deriving Repr, DecidableEq

/-- A database with empty tables, serial starting at 1. -/
def dbEmpty : DbState := ⟨[], 1, [], []⟩

/-- `insert into todos (text, completed) values ($1, false) returning *`
(todo.rs lines 115-124): allocates the next serial id; always succeeds. -/
def execInsertTodo (st : DbState) (text : String) : TodoFromRow × DbState :=
  let row : TodoFromRow := ⟨st.nextId, text, false⟩
  (row, { st with todos := st.todos ++ [row], nextId := st.nextId + 1 })

/-- `insert into todo_labels (todo_id, label_id) select $1, id from
unnest($2) as t(id)` (todo.rs lines 126-136 and 210-220): one association
row per element of `label_ids`.  Modelled from the spec: the schema
(migrations) is not in the source tree, but spec §3 ("must reference
existing Labels — referential integrity enforced by the store") and §4.1
("Fails with StorageError if an associated label id does not exist
(relational store)") fix a foreign-key constraint from `todo_labels.label_id`
to `labels.id`; inserting an unknown label id fails with a non-RowNotFound
backend error. -/
def execInsertTodoLabels (st : DbState) (todo_id : Int) (label_ids : List Int) :
    Except SqlxError DbState :=
  if label_ids.all (fun lid => st.labels.any (fun l => l.id = lid)) then
    .ok { st with todo_labels := st.todo_labels ++ label_ids.map (fun lid => (todo_id, lid)) }
  else
    .error (.other "insert or update on table todo_labels violates foreign key constraint")

/-- `update todos set text=$1, completed=$2 where id=$3 returning *` run via
`fetch_one` (todo.rs lines 185-196): if no `todos` row has the id, zero rows
come back and `fetch_one` yields `sqlx::Error::RowNotFound`; otherwise the
row is updated in place. -/
def execUpdateTodo (st : DbState) (id : Int) (text : String) (completed : Bool) :
    Except SqlxError DbState :=
  if st.todos.any (fun t => t.id = id) then
    .ok { st with
          todos := st.todos.map (fun t => if t.id = id then ⟨id, text, completed⟩ else t) }
  else
    .error .rowNotFound

/-- `delete from todo_labels where todo_id=$1` via `execute` (todo.rs lines
201-208 and 232-243): removes the matching association rows.  `execute`
reports the number of affected rows; deleting zero rows is a success, so on
a healthy connection this statement never fails — in particular it never
yields `RowNotFound`, and the `map_err` in `delete` that would turn
`RowNotFound` into `NotFound` can never fire. -/
def execDeleteTodoLabels (st : DbState) (id : Int) : DbState :=
  { st with todo_labels := st.todo_labels.filter (fun p => ¬ p.1 = id) }

/-- `delete from todos where id=$1` via `execute` (todo.rs lines 245-256):
same as `execDeleteTodoLabels` — zero affected rows is a success. -/
def execDeleteTodos (st : DbState) (id : Int) : DbState :=
  { st with todos := st.todos.filter (fun t => ¬ t.id = id) }

/-- The query text of `TodoRepositoryForDb::find` (todo.rs lines 146-150) is

  `select todos.*, labels.id as label_id, labels.name as label_name from
   todos left outer join todo_labels t1 on todo.id = t1.todo_id left outer
   join labels on labels.id = t1.label_id where todos.id=$1;`

The first join condition references `todo.id`, but no table or alias named
`todo` is in scope (the base table is `todos`, the join aliases are `t1`
and `labels`).  A Postgres backend rejects the statement with error 42P01,
"missing FROM-clause entry for table todo" — for every id and every
database state.  The query therefore never returns rows and never yields
`RowNotFound`. -/
def execFindQuery (_st : DbState) (_id : Int) : Except SqlxError (List TodoWithLabelFromRow) :=
  .error (.other "missing FROM-clause entry for table todo")

/-- `TodoRepositoryForDb::find` (todo.rs lines 144-164): run the (malformed)
query, map `RowNotFound` to `NotFound(id)` and every other backend error to
`Unexpected(msg)`, fold the rows and take the first entity, `NotFound` if
there is none.  The `.ok` branch is written out faithfully but is
unreachable, because `execFindQuery` always fails; `none` would model a
panic inside `fold_entities`. -/
def db_find (st : DbState) (id : Int) : Option (Except DbError TodoEntity) :=
  match execFindQuery st id with
  | .error .rowNotFound => some (.error (.repo (.notFound id)))
  | .error (.other m) => some (.error (.repo (.unexpected m)))
  | .ok items =>
    match fold_entities items with
    | none => none
    | some todos =>
      match todos.head? with
      | some todo => some (.ok todo)
      | none => some (.error (.repo (.notFound id)))

/-- The rows the `all` query (todo.rs lines 167-175) produces for one
`todos` row `t`: left outer join against `todo_labels` (alias `t1`, matching
`t1.todo_id = t.id`, in association-table order) and then against `labels`
(matching `labels.id = t1.label_id`).  A todo with no association rows
yields one row with null label fields; a dangling association (label id
absent from `labels`) yields a row whose label fields are null because the
selected columns `labels.id`/`labels.name` come from the unmatched side. -/
def joinedRowFor (st : DbState) (t : TodoFromRow) (q : Int × Int) : TodoWithLabelFromRow :=
  match st.labels.find? (fun l => l.id = q.2) with
  | some l => ⟨t.id, t.text, t.completed, some l.id, some l.name⟩
  | none => ⟨t.id, t.text, t.completed, none, none⟩

/-- All rows of the `all` query belonging to one `todos` row (see
`joinedRowFor`): one per association entry, or a single null-label row when
the todo has no associations. -/
def rowsForTodo (st : DbState) (t : TodoFromRow) : List TodoWithLabelFromRow :=
  match st.todo_labels.filter (fun p => p.1 = t.id) with
  | [] => [⟨t.id, t.text, t.completed, none, none⟩]
  | ps => ps.map (joinedRowFor st t)

/-- The descending-id comparison `order by todos.id desc` sorts by. -/
def descIdRel (a b : TodoFromRow) : Prop := b.id ≤ a.id

instance : DecidableRel descIdRel := fun a b => Int.decLe b.id a.id

instance : IsTotal TodoFromRow descIdRel := ⟨fun a b => Int.le_total b.id a.id⟩

instance : IsTrans TodoFromRow descIdRel := ⟨fun _ _ _ hab hbc => le_trans hbc hab⟩

/-- `order by todos.id desc` (todo.rs line 171): the `todos` rows sorted by
descending id (insertion sort; ties keep table order). -/
def sortTodosDesc (ts : List TodoFromRow) : List TodoFromRow :=
  List.insertionSort descIdRel ts

/-- The full row set of the `all` query: rows grouped by todo, todos in
descending-id order. -/
def allQueryRows (st : DbState) : List TodoWithLabelFromRow :=
  (sortTodosDesc st.todos).flatMap (rowsForTodo st)

/-- `TodoRepositoryForDb::all` (todo.rs lines 166-178): the join query (its
SQL, unlike `find`'s, is well-formed) followed by `fold_entities`; `none`
models a panic inside `fold_entities`. -/
def db_all (st : DbState) : Option (List TodoEntity) :=
  fold_entities (allQueryRows st)

/-- `TodoRepositoryForDb::create` (todo.rs lines 113-142): begin a
transaction (which no statement joins), insert the `todos` row on the pool,
insert the association rows on the pool, commit the (empty) transaction,
then re-`find` the todo.  A failure of the association insert is propagated
raw by `?` — with the `todos` insert already committed.  The returned state
is meaningful in the error cases precisely because the statements
auto-committed. -/
def db_create (st : DbState) (payload : CreateTodo) :
    Option (Except DbError TodoEntity × DbState) :=
  let r := execInsertTodo st payload.text
  match execInsertTodoLabels r.2 r.1.id payload.labels with
  | .error e => some (.error (.sqlx e), r.2)
  | .ok st2 =>
    match db_find st2 r.1.id with
    | none => none
    | some (.error e) => some (.error e, st2)
    | some (.ok todo) => some (.ok todo, st2)

/-- `TodoRepositoryForDb::update` (todo.rs lines 180-227): begin (unused)
transaction; `find` the old todo (this always fails — see `execFindQuery` —
so the rest is dead code, still translated faithfully); update the base row
with `payload` merged over the old values; if `payload.labels` is present,
delete all association rows and insert the new ones; commit; re-`find`. -/
def db_update (st : DbState) (id : Int) (payload : UpdateTodo) :
    Option (Except DbError TodoEntity × DbState) :=
  match db_find st id with
  | none => none
  | some (.error e) => some (.error e, st)
  | some (.ok old) =>
    match execUpdateTodo st id (payload.text.getD old.text)
        (payload.completed.getD old.completed) with
    | .error e => some (.error (.sqlx e), st)
    | .ok st1 =>
      match payload.labels with
      | none =>
        match db_find st1 id with
        | none => none
        | some (.error e) => some (.error e, st1)
        | some (.ok todo) => some (.ok todo, st1)
      | some ls =>
        let st2 := execDeleteTodoLabels st1 id
        match execInsertTodoLabels st2 id ls with
        | .error e => some (.error (.sqlx e), st2)
        | .ok st3 =>
          match db_find st3 id with
          | none => none
          | some (.error e) => some (.error e, st3)
          | some (.ok todo) => some (.ok todo, st3)

/-- `TodoRepositoryForDb::delete` (todo.rs lines 229-261): begin (unused)
transaction; delete the association rows; delete the base row; commit.
Both deletes go through `execute`, which treats zero affected rows as
success, so the operation succeeds for every id — including ids with no
`todos` row — and the `RowNotFound → NotFound` mappings are dead code. -/
def db_delete (st : DbState) (id : Int) : Except DbError Unit × DbState :=
  let st1 := execDeleteTodoLabels st id
  let st2 := execDeleteTodos st1 id
  (.ok (), st2)

/-! ## Specification-side vocabulary used to state the claim theorems -/

/-- The ids `base + 1, base + 2, ..., base + n`. -/
def idsFrom (base n : Nat) : List Int :=
  (List.range n).map (fun k => ((base + k + 1 : Nat) : Int))

/-- First-seen-order accumulation of ids: the order in which `foldGo` opens
new accumulator entries. -/
def foldIds : List Int → List Int → List Int
  | seen, [] => seen
  | seen, i :: rest => if i ∈ seen then foldIds seen rest else foldIds (seen ++ [i]) rest

/-- The labels the row set carries for item `i`, in row order, null rows
skipped, no deduplication. -/
def labelsFor (rows : List TodoWithLabelFromRow) (i : Int) : List Label :=
  (rows.filter (fun r => r.id = i)).filterMap rowLabel

/-- The labels associated to todo `i` in the database tables, in
association-table order (the hydration `all` is expected to produce). -/
def dbLabelsOf (st : DbState) (i : Int) : List Label :=
  (st.todo_labels.filter (fun p => p.1 = i)).filterMap
    (fun p => st.labels.find? (fun l => l.id = p.2))

/-- The fully hydrated entity for a `todos` row. -/
def entityFor (st : DbState) (t : TodoFromRow) : TodoEntity :=
  ⟨t.id, t.text, t.completed, dbLabelsOf st t.id⟩

/-- Well-formedness of a database state: primary-key uniqueness on `todos`
and referential integrity of `todo_labels.label_id` (both constraints the
schema enforces per spec §3). -/
def DbWF (st : DbState) : Prop :=
  (st.todos.map TodoFromRow.id).Nodup ∧
  ∀ p ∈ st.todo_labels, ∃ l ∈ st.labels, l.id = p.2

example : db_delete dbEmpty 1 = (.ok (), dbEmpty) := rfl

example :
    db_find dbEmpty 1 =
      some (.error (.repo (.unexpected "missing FROM-clause entry for table todo"))) := rfl

example :
    db_all ⟨[⟨1, "a", false⟩, ⟨2, "b", true⟩], 3, [⟨7, "L"⟩], [(1, 7)]⟩ =
      some [⟨2, "b", true, []⟩, ⟨1, "a", false, [⟨7, "L"⟩]⟩] := by decide

/-! ## Properties of the row-folding engine -/

theorem rowLabel_isSome {row : TodoWithLabelFromRow} {l : Label}
    (h : rowLabel row = some l) : row.label_id.isSome = true := by
  cases hid : row.label_id with
  | some lid => rfl
  | none => cases hn : row.label_name <;> simp [rowLabel, hid, hn] at h

theorem foldGo_cons (accum : List TodoEntity) (row : TodoWithLabelFromRow)
    (rest : List TodoWithLabelFromRow) :
    foldGo accum (row :: rest) =
      if row.id ∈ accum.map TodoEntity.id then
        match rowLabel row with
        | some l => foldGo (pushLabel accum row.id l) rest
        | none => none
      else
        if row.label_id.isSome then
          match rowLabel row with
          | some l => foldGo (accum ++ [⟨row.id, row.text, row.completed, [l]⟩]) rest
          | none => none
        else foldGo (accum ++ [⟨row.id, row.text, row.completed, []⟩]) rest := rfl

theorem foldIds_cons (seen : List Int) (i : Int) (rest : List Int) :
    foldIds seen (i :: rest) =
      if i ∈ seen then foldIds seen rest else foldIds (seen ++ [i]) rest := rfl

theorem foldGo_cons_seen_some (accum : List TodoEntity) (row : TodoWithLabelFromRow)
    (rest : List TodoWithLabelFromRow) (l : Label)
    (hmem : row.id ∈ accum.map TodoEntity.id) (hl : rowLabel row = some l) :
    foldGo accum (row :: rest) = foldGo (pushLabel accum row.id l) rest := by
  rw [foldGo_cons, if_pos hmem, hl]

theorem foldGo_cons_seen_none (accum : List TodoEntity) (row : TodoWithLabelFromRow)
    (rest : List TodoWithLabelFromRow)
    (hmem : row.id ∈ accum.map TodoEntity.id) (hl : rowLabel row = none) :
    foldGo accum (row :: rest) = none := by
  rw [foldGo_cons, if_pos hmem, hl]

theorem foldGo_cons_new_some (accum : List TodoEntity) (row : TodoWithLabelFromRow)
    (rest : List TodoWithLabelFromRow) (l : Label)
    (hmem : row.id ∉ accum.map TodoEntity.id) (hl : rowLabel row = some l) :
    foldGo accum (row :: rest) =
      foldGo (accum ++ [⟨row.id, row.text, row.completed, [l]⟩]) rest := by
  rw [foldGo_cons, if_neg hmem, if_pos (rowLabel_isSome hl), hl]

theorem foldGo_cons_new_nolabel (accum : List TodoEntity) (row : TodoWithLabelFromRow)
    (rest : List TodoWithLabelFromRow)
    (hmem : row.id ∉ accum.map TodoEntity.id) (hid : row.label_id = none) :
    foldGo accum (row :: rest) =
      foldGo (accum ++ [⟨row.id, row.text, row.completed, []⟩]) rest := by
  rw [foldGo_cons, if_neg hmem, hid]
  rfl

theorem foldGo_cons_new_poison (accum : List TodoEntity) (row : TodoWithLabelFromRow)
    (rest : List TodoWithLabelFromRow) (lid : Int)
    (hmem : row.id ∉ accum.map TodoEntity.id) (hid : row.label_id = some lid)
    (hl : rowLabel row = none) :
    foldGo accum (row :: rest) = none := by
  rw [foldGo_cons, if_neg hmem, hid, hl]
  rfl

/-- `pushLabel` touches only one entity's label list: ids are unchanged. -/
theorem pushLabel_map_id (a : List TodoEntity) (i : Int) (l : Label) :
    (pushLabel a i l).map TodoEntity.id = a.map TodoEntity.id := by
  induction a with
  | nil => rfl
  | cons t ts ih =>
    unfold pushLabel
    by_cases h : t.id = i
    · rw [if_pos h]
      simp
    · rw [if_neg h]
      simp [ih]

/-- `pushLabel` preserves every entity's base fields. -/
theorem pushLabel_base_mem (a : List TodoEntity) (i : Int) (l : Label) (e : TodoEntity)
    (he : e ∈ pushLabel a i l) :
    ∃ e0 ∈ a, e0.id = e.id ∧ e0.text = e.text ∧ e0.completed = e.completed := by
  induction a with
  | nil => cases he
  | cons t ts ih =>
    unfold pushLabel at he
    by_cases h : t.id = i
    · rw [if_pos h] at he
      rcases List.mem_cons.mp he with rfl | hmem
      · exact ⟨t, List.mem_cons_self t ts, rfl, rfl, rfl⟩
      · exact ⟨e, List.mem_cons_of_mem t hmem, rfl, rfl, rfl⟩
    · rw [if_neg h] at he
      rcases List.mem_cons.mp he with rfl | hmem
      · exact ⟨e, List.mem_cons_self e ts, rfl, rfl, rfl⟩
      · obtain ⟨e0, he0, hfields⟩ := ih hmem
        exact ⟨e0, List.mem_cons_of_mem t he0, hfields⟩

/-- Under unique ids, `pushLabel` is the pointwise update of the (unique)
matching entity. -/
theorem pushLabel_eq_map (a : List TodoEntity) (i : Int) (l : Label)
    (h : (a.map TodoEntity.id).Nodup) :
    pushLabel a i l =
      a.map (fun e => if e.id = i then { e with labels := e.labels ++ [l] } else e) := by
  induction a with
  | nil => rfl
  | cons t ts ih =>
    simp only [List.map_cons, List.nodup_cons] at h
    unfold pushLabel
    by_cases ht : t.id = i
    · rw [if_pos ht]
      simp only [List.map_cons, if_pos ht]
      congr 1
      have hnone : ∀ e ∈ ts,
          (if e.id = i then { e with labels := e.labels ++ [l] } else e) = e := by
        intro e hme
        refine if_neg (fun hei => h.1 ?_)
        rw [← ht] at hei
        exact hei ▸ List.mem_map_of_mem TodoEntity.id hme
      exact ((List.map_congr_left hnone).trans (List.map_id ts)).symm
    · rw [if_neg ht]
      simp only [List.map_cons, if_neg ht]
      congr 1
      exact ih h.2

/-- The ids of a successful fold are the first-seen-order accumulation of
the input row ids on top of the accumulator's ids. -/
theorem foldGo_ids (rows : List TodoWithLabelFromRow) :
    ∀ accum out : List TodoEntity, foldGo accum rows = some out →
      out.map TodoEntity.id =
        foldIds (accum.map TodoEntity.id) (rows.map TodoWithLabelFromRow.id) := by
  induction rows with
  | nil =>
    intro accum out h
    simp only [foldGo, Option.some.injEq] at h
    subst h
    rfl
  | cons row rest ih =>
    intro accum out h
    by_cases hmem : row.id ∈ accum.map TodoEntity.id
    · cases hl : rowLabel row with
      | none =>
        rw [foldGo_cons_seen_none accum row rest hmem hl] at h
        exact Option.noConfusion h
      | some l =>
        rw [foldGo_cons_seen_some accum row rest l hmem hl] at h
        have hids := ih _ _ h
        rw [pushLabel_map_id] at hids
        rw [hids, List.map_cons, foldIds_cons, if_pos hmem]
    · cases hid : row.label_id with
      | none =>
        rw [foldGo_cons_new_nolabel accum row rest hmem hid] at h
        have hids := ih _ _ h
        rw [hids, List.map_cons, foldIds_cons, if_neg hmem]
        simp
      | some lid =>
        cases hl : rowLabel row with
        | none =>
          rw [foldGo_cons_new_poison accum row rest lid hmem hid hl] at h
          exact Option.noConfusion h
        | some l =>
          rw [foldGo_cons_new_some accum row rest l hmem hl] at h
          have hids := ih _ _ h
          rw [hids, List.map_cons, foldIds_cons, if_neg hmem]
          simp

theorem rowLabel_none_of_id_none {row : TodoWithLabelFromRow}
    (hid : row.label_id = none) : rowLabel row = none := by
  unfold rowLabel
  rw [hid]

theorem labelsFor_nil (i : Int) : labelsFor [] i = [] := rfl

theorem labelsFor_cons_pos (row : TodoWithLabelFromRow) (rest : List TodoWithLabelFromRow)
    (i : Int) (h : row.id = i) :
    labelsFor (row :: rest) i = (rowLabel row).toList ++ labelsFor rest i := by
  unfold labelsFor
  rw [List.filter_cons_of_pos (by simp [h]), List.filterMap_cons]
  cases hcase : rowLabel row <;> simp [hcase]

theorem labelsFor_cons_neg (row : TodoWithLabelFromRow) (rest : List TodoWithLabelFromRow)
    (i : Int) (h : ¬ row.id = i) :
    labelsFor (row :: rest) i = labelsFor rest i := by
  unfold labelsFor
  rw [List.filter_cons_of_neg (by simp [h])]

/-- Base fields of every folded entity come from the accumulator or from
the first input row bearing the entity's id. -/
theorem foldGo_base (rows : List TodoWithLabelFromRow) :
    ∀ accum out : List TodoEntity, foldGo accum rows = some out →
      ∀ e ∈ out,
        (∃ e0 ∈ accum, e0.id = e.id ∧ e0.text = e.text ∧ e0.completed = e.completed) ∨
        (e.id ∉ accum.map TodoEntity.id ∧
          ∃ r, rows.find? (fun q => q.id = e.id) = some r ∧
            r.text = e.text ∧ r.completed = e.completed) := by
  induction rows with
  | nil =>
    intro accum out h e he
    simp only [foldGo, Option.some.injEq] at h
    subst h
    exact Or.inl ⟨e, he, rfl, rfl, rfl⟩
  | cons row rest ih =>
    intro accum out h e he
    by_cases hmem : row.id ∈ accum.map TodoEntity.id
    · cases hl : rowLabel row with
      | none =>
        rw [foldGo_cons_seen_none accum row rest hmem hl] at h
        exact Option.noConfusion h
      | some l =>
        rw [foldGo_cons_seen_some accum row rest l hmem hl] at h
        rcases ih _ _ h e he with ⟨e0, he0, h0i, h0t, h0c⟩ | ⟨hnm, r, hfind, hrf⟩
        · obtain ⟨e1, he1, h1i, h1t, h1c⟩ := pushLabel_base_mem accum row.id l e0 he0
          exact Or.inl ⟨e1, he1, h1i.trans h0i, h1t.trans h0t, h1c.trans h0c⟩
        · rw [pushLabel_map_id] at hnm
          have hne : ¬ row.id = e.id := fun hh => hnm (hh ▸ hmem)
          refine Or.inr ⟨hnm, r, ?_, hrf⟩
          rw [List.find?_cons_of_neg _ (by simp [hne])]
          exact hfind
    · have hstep : ∃ L, foldGo (accum ++ [⟨row.id, row.text, row.completed, L⟩]) rest
          = some out := by
        cases hid : row.label_id with
        | none =>
          exact ⟨[], by rw [← foldGo_cons_new_nolabel accum row rest hmem hid]; exact h⟩
        | some lid =>
          cases hl : rowLabel row with
          | none =>
            rw [foldGo_cons_new_poison accum row rest lid hmem hid hl] at h
            exact Option.noConfusion h
          | some l =>
            exact ⟨[l], by rw [← foldGo_cons_new_some accum row rest l hmem hl]; exact h⟩
      obtain ⟨L, hstep⟩ := hstep
      rcases ih _ _ hstep e he with ⟨e0, he0, h0i, h0t, h0c⟩ | ⟨hnm, r, hfind, hrf⟩
      · rcases List.mem_append.mp he0 with ha | hb
        · exact Or.inl ⟨e0, ha, h0i, h0t, h0c⟩
        · simp only [List.mem_singleton] at hb
          subst hb
          have hri : row.id = e.id := h0i
          refine Or.inr ⟨fun hc => hmem (by rw [hri]; exact hc), row, ?_, h0t, h0c⟩
          rw [List.find?_cons_of_pos _ (by simp [hri])]
      · simp only [List.map_append, List.map_cons, List.map_nil, List.mem_append,
          List.mem_singleton, not_or] at hnm
        refine Or.inr ⟨hnm.1, r, ?_, hrf⟩
        rw [List.find?_cons_of_neg _ (by simp; exact fun hh => hnm.2 hh.symm)]
        exact hfind

/-- The label list of every folded entity: what the accumulator already
held for that id (if anything) followed by the labels of all rows bearing
that id, in row order, nulls skipped, no deduplication. -/
theorem foldGo_labels (rows : List TodoWithLabelFromRow) :
    ∀ accum out : List TodoEntity, (accum.map TodoEntity.id).Nodup →
      foldGo accum rows = some out →
      ∀ e ∈ out,
        (∀ e0 ∈ accum, e0.id = e.id → e.labels = e0.labels ++ labelsFor rows e.id) ∧
        (e.id ∉ accum.map TodoEntity.id → e.labels = labelsFor rows e.id) := by
  induction rows with
  | nil =>
    intro accum out hnd h e he
    simp only [foldGo, Option.some.injEq] at h
    subst h
    constructor
    · intro e0 he0 hid0
      have : e0 = e := List.inj_on_of_nodup_map hnd he0 he hid0
      subst this
      simp [labelsFor_nil]
    · intro hnm
      exact absurd (List.mem_map_of_mem TodoEntity.id he) hnm
  | cons row rest ih =>
    intro accum out hnd h e he
    by_cases hmem : row.id ∈ accum.map TodoEntity.id
    · cases hl : rowLabel row with
      | none =>
        rw [foldGo_cons_seen_none accum row rest hmem hl] at h
        exact Option.noConfusion h
      | some l =>
        rw [foldGo_cons_seen_some accum row rest l hmem hl] at h
        have hnd' : ((pushLabel accum row.id l).map TodoEntity.id).Nodup := by
          rw [pushLabel_map_id]; exact hnd
        have IH := ih _ _ hnd' h e he
        constructor
        · intro e0 he0 hid0
          by_cases hre : e0.id = row.id
          · have hmem' : { e0 with labels := e0.labels ++ [l] } ∈ pushLabel accum row.id l := by
              rw [pushLabel_eq_map accum row.id l hnd]
              exact List.mem_map.mpr ⟨e0, he0, by rw [if_pos hre]⟩
            have hlab := IH.1 _ hmem' hid0
            rw [labelsFor_cons_pos row rest e.id (hre.symm.trans hid0), hl, hlab]
            simp
          · have hmem' : e0 ∈ pushLabel accum row.id l := by
              rw [pushLabel_eq_map accum row.id l hnd]
              exact List.mem_map.mpr ⟨e0, he0, by rw [if_neg hre]⟩
            have hlab := IH.1 _ hmem' hid0
            rw [labelsFor_cons_neg row rest e.id (fun hh => hre (hid0.trans hh.symm))]
            exact hlab
        · intro hnm
          have hnm' : e.id ∉ (pushLabel accum row.id l).map TodoEntity.id := by
            rw [pushLabel_map_id]; exact hnm
          have hlab := IH.2 hnm'
          rw [labelsFor_cons_neg row rest e.id (fun hh => hnm (hh ▸ hmem))]
          exact hlab
    · have hstep : ∃ L, L = (rowLabel row).toList ∧
          foldGo (accum ++ [⟨row.id, row.text, row.completed, L⟩]) rest = some out := by
        cases hid : row.label_id with
        | none =>
          refine ⟨[], by rw [rowLabel_none_of_id_none hid]; rfl, ?_⟩
          rw [← foldGo_cons_new_nolabel accum row rest hmem hid]
          exact h
        | some lid =>
          cases hl : rowLabel row with
          | none =>
            rw [foldGo_cons_new_poison accum row rest lid hmem hid hl] at h
            exact Option.noConfusion h
          | some l =>
            refine ⟨[l], rfl, ?_⟩
            rw [← foldGo_cons_new_some accum row rest l hmem hl]
            exact h
      obtain ⟨L, hLdef, hstep⟩ := hstep
      have hnd' : (((accum ++ [(⟨row.id, row.text, row.completed, L⟩ : TodoEntity)])).map TodoEntity.id).Nodup := by
        rw [List.map_append]
        rw [List.nodup_append]
        refine ⟨hnd, List.nodup_singleton _, ?_⟩
        intro a ha hb
        simp only [List.map_cons, List.map_nil, List.mem_singleton] at hb
        subst hb
        exact hmem ha
      have IH := ih _ _ hnd' hstep e he
      constructor
      · intro e0 he0 hid0
        have hlab := IH.1 e0 (List.mem_append_left _ he0) hid0
        have hne : ¬ row.id = e.id := fun hh =>
          hmem (hh ▸ hid0 ▸ List.mem_map_of_mem TodoEntity.id he0)
        rw [labelsFor_cons_neg row rest e.id hne]
        exact hlab
      · intro hnm
        by_cases hre : e.id = row.id
        · have hlab := IH.1 (⟨row.id, row.text, row.completed, L⟩ : TodoEntity)
            (List.mem_append_right _ (List.mem_singleton_self _)) hre.symm
          rw [labelsFor_cons_pos row rest e.id hre.symm, ← hLdef]
          exact hlab
        · have hnm' : e.id ∉ ((accum ++ [(⟨row.id, row.text, row.completed, L⟩ : TodoEntity)])).map
              TodoEntity.id := by
            rw [List.map_append]
            simp only [List.mem_append, List.map_cons, List.map_nil,
              List.mem_singleton, not_or]
            exact ⟨hnm, hre⟩
          have hlab := IH.2 hnm'
          rw [labelsFor_cons_neg row rest e.id (fun hh => hre hh.symm)]
          exact hlab

/-- First-seen-order id accumulation preserves id uniqueness. -/
theorem foldIds_nodup : ∀ (l seen : List Int), seen.Nodup → (foldIds seen l).Nodup := by
  intro l
  induction l with
  | nil => intro seen h; exact h
  | cons i rest ih =>
    intro seen h
    rw [foldIds_cons]
    by_cases hm : i ∈ seen
    · rw [if_pos hm]
      exact ih seen h
    · rw [if_neg hm]
      refine ih _ ?_
      rw [List.nodup_append]
      exact ⟨h, List.nodup_singleton _, fun a ha hb => by
        simp only [List.mem_singleton] at hb
        subst hb
        exact hm ha⟩

/-! ## Claim theorems: direct evaluations -/

/-- Looking up a key right after inserting it yields the inserted value. -/
theorem memLookup_memInsert (l : List (Int × TodoEntity)) (k : Int) (v : TodoEntity) :
    memLookup ⟨memInsert l k v⟩ k = some v := by
  induction l with
  | nil => simp [memInsert, memLookup, List.find?]
  | cons p ps ih =>
    unfold memInsert
    by_cases h : p.1 = k
    · simp [memLookup, List.find?, h]
    · simpa [memLookup, List.find?, h] using ih

/-- C1.  The relational store's multi-statement operations are NOT atomic:
every statement of `create`/`update`/`delete` executes on `&self.pool`
(auto-commit) instead of on the transaction opened by `self.pool.begin()`,
so a later failure leaves the earlier statements' effects visible.
Concretely, on an empty database, `create` with `labels = [5]` inserts the
`todos` row, then fails the association insert (foreign key: label 5 does
not exist) — yet the new `todos` row remains in the state the operation
leaves behind.  Likewise `create` with `labels = []` commits both inserts
and then returns an error from the (broken) trailing `find`: the operation
reports failure while all of its effects are visible. -/
theorem claim_db_transaction_atomicity :
    db_create dbEmpty ⟨"a", [5]⟩ =
      some (.error (.sqlx (.other
          "insert or update on table todo_labels violates foreign key constraint")),
        ⟨[⟨1, "a", false⟩], 2, [], []⟩) ∧
    db_create dbEmpty ⟨"a", []⟩ =
      some (.error (.repo (.unexpected "missing FROM-clause entry for table todo")),
        ⟨[⟨1, "a", false⟩], 2, [], []⟩) := by
  exact ⟨rfl, rfl⟩

/-- C2.  `fold_entities` does not return a result on every row order: on a
row whose label fields are null but whose todo id is already in the
accumulator, the Rust code calls `.unwrap()` on `None` and panics
(modelled as `none`), instead of skipping the null label as the spec
prescribes. -/
theorem claim_fold_null_label_panic :
    fold_entities
      [⟨1, "a", false, some 1, some "L"⟩, ⟨1, "a", false, none, none⟩] = none :=
  rfl

/-- C3 counterexample.  `fold_entities` does not deduplicate labels by id:
two input rows repeating the same (todo id, label id) pair produce a todo
whose label list contains the same label id twice. -/
theorem claim_fold_label_dedup_cex :
    fold_entities
      [⟨1, "a", false, some 1, some "L"⟩, ⟨1, "a", false, some 1, some "L"⟩] =
      some [⟨1, "a", false, [⟨1, "L"⟩, ⟨1, "L"⟩]⟩] ∧
    ¬ ([⟨1, "L"⟩, ⟨1, "L"⟩].map Label.id).Nodup := by
  exact ⟨rfl, by decide⟩

/-- C4.  On a non-existent id the relational store does not behave as the
claim says: `delete` succeeds (a `DELETE` affecting zero rows is not an
error, so the `RowNotFound → NotFound` mapping never fires), and `find`
and `update` fail with `Unexpected` (their query is malformed — see
`execFindQuery`), never with `NotFound`.  Only the in-memory store returns
`NotFound` from all three operations. -/
theorem claim_notfound_boundary_divergence :
    db_delete dbEmpty 1 = (.ok (), dbEmpty) ∧
    db_find dbEmpty 1 =
      some (.error (.repo (.unexpected "missing FROM-clause entry for table todo"))) ∧
    db_update dbEmpty 1 ⟨none, none, none⟩ =
      some (.error (.repo (.unexpected "missing FROM-clause entry for table todo")),
        dbEmpty) ∧
    memFind memNew 1 = .error (.notFound 1) ∧
    memUpdate memNew 1 ⟨none, none, none⟩ = .error (.notFound 1) ∧
    memDelete memNew 1 = .error (.notFound 1) := by
  exact ⟨rfl, rfl, rfl, rfl, rfl, rfl⟩

/-- C5.  Partial update does not retain absent fields uniformly: the
in-memory `update` hardcodes `let labels = vec![]`, so a todo holding a
label loses it even when `payload.labels` is absent; and the relational
`update` never applies anything, because its initial `find` always fails
(malformed query).  Shown at a store holding todo 1 with label ⟨1, "L"⟩
and the all-absent payload. -/
theorem claim_partial_update_divergence :
    memUpdate ⟨[(1, ⟨1, "a", false, [⟨1, "L"⟩]⟩)]⟩ 1 ⟨none, none, none⟩ =
      .ok (⟨1, "a", false, []⟩, ⟨[(1, ⟨1, "a", false, []⟩)]⟩) ∧
    db_update ⟨[⟨1, "a", false⟩], 2, [⟨1, "L"⟩], [(1, 1)]⟩ 1 ⟨none, none, none⟩ =
      some (.error (.repo (.unexpected "missing FROM-clause entry for table todo")),
        ⟨[⟨1, "a", false⟩], 2, [⟨1, "L"⟩], [(1, 1)]⟩) := by
  exact ⟨rfl, rfl⟩

/-- C6 counterexample.  Identifiers assigned by successive in-memory
Creates are not unique once a Delete intervenes: create, create, delete(1),
create assigns ids 1, 2, 2 — the third Create returns the same id as the
second on the same instance. -/
theorem claim_create_id_monotone_cex :
    (memCreate (memCreate memNew ⟨"a", []⟩).2 ⟨"b", []⟩).1.id = 2 ∧
    memDelete (memCreate (memCreate memNew ⟨"a", []⟩).2 ⟨"b", []⟩).2 1 =
      .ok ⟨[(2, ⟨2, "b", false, []⟩)]⟩ ∧
    (memCreate ⟨[(2, ⟨2, "b", false, []⟩)]⟩ ⟨"c", []⟩).1.id = 2 := by
  exact ⟨rfl, rfl, rfl⟩

/-- C7.  Round-trip on the in-memory store: Create followed immediately by
Find on the returned id yields exactly the entity Create returned (for any
starting store and any payload). -/
theorem claim_create_find_roundtrip (s : MemStore) (p : CreateTodo) :
    memFind (memCreate s p).2 (memCreate s p).1.id = .ok (memCreate s p).1 := by
  simp [memCreate, memFind, memLookup_memInsert, TodoEntity.new]

/-! ## C6 amended: ids of Delete-free Create sequences -/

theorem idsFrom_succ (base n : Nat) :
    idsFrom base (n + 1) = ((base + 1 : Nat) : Int) :: idsFrom (base + 1) n := by
  unfold idsFrom
  rw [List.range_succ_eq_map, List.map_cons, List.map_map]
  refine congrArg₂ _ (by norm_num) (List.map_congr_left ?_)
  intro a _
  simp only [Function.comp_apply]
  congr 1
  omega

theorem idsFrom_pairwise (base n : Nat) : (idsFrom base n).Pairwise (· < ·) := by
  unfold idsFrom
  exact (List.pairwise_lt_range n).map _ (fun a b hab => by omega)

/-- Inserting a key absent from the map appends the binding. -/
theorem memInsert_fresh (l : List (Int × TodoEntity)) (k : Int) (v : TodoEntity)
    (h : k ∉ l.map Prod.fst) : memInsert l k v = l ++ [(k, v)] := by
  induction l with
  | nil => rfl
  | cons p ps ih =>
    simp only [List.map_cons, List.mem_cons, not_or] at h
    unfold memInsert
    rw [if_neg (fun hk => h.1 hk.symm), ih h.2]
    rfl

/-- On a store all of whose keys are at most its size, a Delete-free
sequence of Creates returns the ids `size + 1, ..., size + n` in order. -/
theorem memCreateMany_ids (ps : List CreateTodo) :
    ∀ s : MemStore, (∀ k ∈ s.data.map Prod.fst, k ≤ (s.data.length : Int)) →
      (memCreateMany s ps).1.map TodoEntity.id = idsFrom s.data.length ps.length := by
  induction ps with
  | nil => intro s _; simp [memCreateMany, idsFrom]
  | cons p ps ih =>
    intro s h
    have hfresh : ((s.data.length : Int) + 1) ∉ s.data.map Prod.fst := by
      intro hmem
      have := h _ hmem
      omega
    have hins := memInsert_fresh s.data ((s.data.length : Int) + 1)
      (TodoEntity.new ((s.data.length : Int) + 1) p.text) hfresh
    have hnext : ∀ k ∈ (s.data ++
          [(((s.data.length : Int) + 1),
            TodoEntity.new ((s.data.length : Int) + 1) p.text)]).map Prod.fst,
        k ≤ (((s.data ++ [(((s.data.length : Int) + 1),
            TodoEntity.new ((s.data.length : Int) + 1) p.text)]).length : Nat) : Int) := by
      intro k hk
      simp only [List.map_append, List.mem_append, List.map_cons, List.map_nil,
        List.mem_singleton, List.length_append, List.length_singleton] at hk ⊢
      rcases hk with hk | hk
      · have := h _ hk
        push_cast
        omega
      · rw [hk]
        push_cast
        omega
    have hrec := ih ⟨s.data ++ [(((s.data.length : Int) + 1),
      TodoEntity.new ((s.data.length : Int) + 1) p.text)]⟩ hnext
    simp only [memCreateMany, memCreate, List.map_cons]
    rw [hins]
    rw [hrec]
    simp only [List.length_append, List.length_singleton, List.length_cons]
    rw [idsFrom_succ]
    refine congrArg₂ _ ?_ rfl
    show ((s.data.length : Int) + 1) = ((s.data.length + 1 : Nat) : Int)
    push_cast
    ring

/-- C6 amended.  On a fresh in-memory store instance, a sequence of Creates
with no intervening Deletes returns the ids `1, 2, ..., n`: unique and
strictly increasing.  (With interleaved Deletes this fails — see the
counterexample: `len + 1` can re-issue a live id.) -/
theorem claim_create_ids_unique_without_deletes (ps : List CreateTodo) :
    (memCreateMany memNew ps).1.map TodoEntity.id = idsFrom 0 ps.length ∧
    ((memCreateMany memNew ps).1.map TodoEntity.id).Pairwise (· < ·) ∧
    ((memCreateMany memNew ps).1.map TodoEntity.id).Nodup := by
  have h := memCreateMany_ids ps memNew (by intro k hk; simp [memNew] at hk)
  refine ⟨h, ?_, ?_⟩
  · rw [h]; exact idsFrom_pairwise 0 ps.length
  · rw [h]; exact (idsFrom_pairwise 0 ps.length).imp (fun hx => ne_of_lt hx)

/-- C9.  A reachable in-memory state in which Create silently overwrites a
live todo: after Creates of ids 1, 2, 3 and Delete of id 1 the store holds
todos 2 and 3 with two entries; the next Create returns id 3 (= `len + 1`),
replaces live todo 3 — whose text "c" is lost in favour of "d" — reports
success, and leaves the entry count at 2. -/
theorem claim_id_reuse_silent_replace :
    (memCreateMany memNew [⟨"a", []⟩, ⟨"b", []⟩, ⟨"c", []⟩]).2 =
      ⟨[(1, ⟨1, "a", false, []⟩), (2, ⟨2, "b", false, []⟩), (3, ⟨3, "c", false, []⟩)]⟩ ∧
    memDelete ⟨[(1, ⟨1, "a", false, []⟩), (2, ⟨2, "b", false, []⟩),
        (3, ⟨3, "c", false, []⟩)]⟩ 1 =
      .ok ⟨[(2, ⟨2, "b", false, []⟩), (3, ⟨3, "c", false, []⟩)]⟩ ∧
    memFind ⟨[(2, ⟨2, "b", false, []⟩), (3, ⟨3, "c", false, []⟩)]⟩ 3 =
      .ok ⟨3, "c", false, []⟩ ∧
    memCreate ⟨[(2, ⟨2, "b", false, []⟩), (3, ⟨3, "c", false, []⟩)]⟩ ⟨"d", []⟩ =
      (⟨3, "d", false, []⟩, ⟨[(2, ⟨2, "b", false, []⟩), (3, ⟨3, "d", false, []⟩)]⟩) ∧
    (⟨[(2, ⟨2, "b", false, []⟩), (3, ⟨3, "d", false, []⟩)]⟩ : MemStore).data.length =
      (⟨[(2, ⟨2, "b", false, []⟩), (3, ⟨3, "c", false, []⟩)]⟩ : MemStore).data.length := by
  exact ⟨rfl, rfl, rfl, rfl, rfl⟩

/-! ## C10: first row wins; C3 amended: ids once, labels undeduplicated -/

/-- C10.  For every folded entity, the base fields `text` and `completed`
are exactly those of the first input row bearing the entity's id; later
rows with that id only extend the label list. -/
theorem claim_fold_first_row_wins (rows : List TodoWithLabelFromRow)
    (out : List TodoEntity) (h : fold_entities rows = some out)
    (e : TodoEntity) (he : e ∈ out) :
    ∃ r, rows.find? (fun q => q.id = e.id) = some r ∧
      r.text = e.text ∧ r.completed = e.completed := by
  rcases foldGo_base rows [] out h e he with ⟨e0, he0, _⟩ | ⟨_, r, hfind, hrf⟩
  · cases he0
  · exact ⟨r, hfind, hrf⟩

theorem claim_fold_first_row_wins_witness :
    fold_entities [⟨1, "a", false, none, none⟩, ⟨1, "b", true, some 1, some "L"⟩] =
      some [⟨1, "a", false, [⟨1, "L"⟩]⟩] ∧
    ∃ r, ([⟨1, "a", false, none, none⟩, ⟨1, "b", true, some 1, some "L"⟩]
          : List TodoWithLabelFromRow).find?
        (fun q => q.id = (⟨1, "a", false, [⟨1, "L"⟩]⟩ : TodoEntity).id) = some r ∧
      r.text = (⟨1, "a", false, [⟨1, "L"⟩]⟩ : TodoEntity).text ∧
      r.completed = (⟨1, "a", false, [⟨1, "L"⟩]⟩ : TodoEntity).completed :=
  ⟨rfl, claim_fold_first_row_wins
    [⟨1, "a", false, none, none⟩, ⟨1, "b", true, some 1, some "L"⟩]
    [⟨1, "a", false, [⟨1, "L"⟩]⟩] rfl ⟨1, "a", false, [⟨1, "L"⟩]⟩
    (List.mem_singleton_self _)⟩

/-- C3 amended.  A successful fold lists each input Item id exactly once,
in first-seen order; each output entity's label list is the labels of all
rows bearing its id, in row order, with nulls skipped and WITHOUT
deduplication by label id (see the counterexample for the duplicated
pair). -/
theorem claim_fold_ids_once_labels_no_dedup (rows : List TodoWithLabelFromRow)
    (out : List TodoEntity) (h : fold_entities rows = some out) :
    out.map TodoEntity.id = foldIds [] (rows.map TodoWithLabelFromRow.id) ∧
    (out.map TodoEntity.id).Nodup ∧
    ∀ e ∈ out, e.labels = labelsFor rows e.id := by
  refine ⟨foldGo_ids rows [] out h, ?_, ?_⟩
  · rw [foldGo_ids rows [] out h]
    exact foldIds_nodup _ _ List.nodup_nil
  · intro e he
    exact (foldGo_labels rows [] out List.nodup_nil h e he).2 (by simp)

theorem claim_fold_ids_once_labels_no_dedup_witness :
    ([⟨1, "a", false, [⟨1, "L"⟩, ⟨1, "L"⟩]⟩] : List TodoEntity).map TodoEntity.id =
      foldIds [] (([⟨1, "a", false, some 1, some "L"⟩, ⟨1, "a", false, some 1, some "L"⟩]
        : List TodoWithLabelFromRow).map TodoWithLabelFromRow.id) ∧
    (([⟨1, "a", false, [⟨1, "L"⟩, ⟨1, "L"⟩]⟩] : List TodoEntity).map TodoEntity.id).Nodup ∧
    ∀ e ∈ ([⟨1, "a", false, [⟨1, "L"⟩, ⟨1, "L"⟩]⟩] : List TodoEntity),
      e.labels = labelsFor
        [⟨1, "a", false, some 1, some "L"⟩, ⟨1, "a", false, some 1, some "L"⟩] e.id :=
  claim_fold_ids_once_labels_no_dedup
    [⟨1, "a", false, some 1, some "L"⟩, ⟨1, "a", false, some 1, some "L"⟩]
    [⟨1, "a", false, [⟨1, "L"⟩, ⟨1, "L"⟩]⟩] rfl

/-! ## C8: `all` is sorted by descending id and fully hydrated -/

theorem pushLabel_cons (t : TodoEntity) (ts : List TodoEntity) (i : Int) (l : Label) :
    pushLabel (t :: ts) i l =
      if t.id = i then { t with labels := t.labels ++ [l] } :: ts
      else t :: pushLabel ts i l := rfl

/-- When the target id sits only in the last (fresh) entity, `pushLabel`
appends the label there. -/
theorem pushLabel_append_last (accum : List TodoEntity) (e : TodoEntity) (l : Label)
    (h : e.id ∉ accum.map TodoEntity.id) :
    pushLabel (accum ++ [e]) e.id l = accum ++ [{ e with labels := e.labels ++ [l] }] := by
  induction accum with
  | nil => rw [List.nil_append, pushLabel_cons, if_pos rfl, List.nil_append]
  | cons t ts ih =>
    simp only [List.map_cons, List.mem_cons, not_or] at h
    rw [List.cons_append, pushLabel_cons, if_neg (fun ht => h.1 ht.symm), ih h.2,
      List.cons_append]

theorem joinedRowFor_id (st : DbState) (t : TodoFromRow) (q : Int × Int) :
    (joinedRowFor st t q).id = t.id := by
  unfold joinedRowFor
  cases st.labels.find? (fun l => l.id = q.2) <;> rfl

theorem rowLabel_joinedRowFor (st : DbState) (t : TodoFromRow) (q : Int × Int)
    (lp : Label) (hlp : st.labels.find? (fun l => l.id = q.2) = some lp) :
    rowLabel (joinedRowFor st t q) = some lp := by
  unfold joinedRowFor
  rw [hlp]
  rfl

/-- Folding a contiguous block of same-id, non-null rows onto a freshly
appended entity appends exactly the block's labels to that entity. -/
theorem foldGo_absorb_block (qs : List TodoWithLabelFromRow) :
    ∀ (accum : List TodoEntity) (e : TodoEntity) (rest : List TodoWithLabelFromRow),
      e.id ∉ accum.map TodoEntity.id →
      (∀ q ∈ qs, q.id = e.id ∧ (rowLabel q).isSome) →
      foldGo (accum ++ [e]) (qs ++ rest) =
        foldGo (accum ++ [{ e with labels := e.labels ++ qs.filterMap rowLabel }]) rest := by
  induction qs with
  | nil =>
    intro accum e rest _ _
    simp
  | cons q qs ih =>
    intro accum e rest hnm hq
    obtain ⟨hqid, hqsome⟩ := hq q (List.mem_cons_self q qs)
    obtain ⟨l, hl⟩ := Option.isSome_iff_exists.mp hqsome
    have hmem : q.id ∈ (accum ++ [e]).map TodoEntity.id := by
      rw [hqid, List.map_append]
      simp
    rw [List.cons_append, foldGo_cons_seen_some _ q _ l hmem hl]
    have hpush : pushLabel (accum ++ [e]) q.id l =
        accum ++ [{ e with labels := e.labels ++ [l] }] := by
      rw [hqid]
      exact pushLabel_append_last accum e l hnm
    rw [hpush]
    rw [ih accum { e with labels := e.labels ++ [l] } rest hnm
      (fun q' hq' => (hq q' (List.mem_cons_of_mem q hq')))]
    have hlabels : e.labels ++ [l] ++ qs.filterMap rowLabel
        = e.labels ++ (q :: qs).filterMap rowLabel := by
      simp [List.filterMap_cons, hl, List.append_assoc]
    exact congrArg (fun L => foldGo (accum ++ [(⟨e.id, e.text, e.completed, L⟩ : TodoEntity)]) rest)
      hlabels

/-- Under referential integrity, the labels of a todo's join rows are
exactly the looked-up labels of its association entries. -/
theorem filterMap_rowLabel_joined (st : DbState) (t : TodoFromRow) :
    ∀ qs : List (Int × Int),
      (∀ q ∈ qs, ∃ lp, st.labels.find? (fun l => l.id = q.2) = some lp) →
      (qs.map (joinedRowFor st t)).filterMap rowLabel
        = qs.filterMap (fun q => st.labels.find? (fun l => l.id = q.2)) := by
  intro qs
  induction qs with
  | nil => intro _; rfl
  | cons q qs ih =>
    intro hsome
    obtain ⟨lq, hlq⟩ := hsome q (List.mem_cons_self q qs)
    rw [List.map_cons, List.filterMap_cons, List.filterMap_cons,
      rowLabel_joinedRowFor st t q lq hlq, hlq,
      ih (fun q' h' => hsome q' (List.mem_cons_of_mem q h'))]

/-- Folding one todo's join-row block onto the accumulator appends its
fully hydrated entity. -/
theorem foldGo_rowsForTodo (st : DbState) (t : TodoFromRow)
    (accum : List TodoEntity) (rest : List TodoWithLabelFromRow)
    (hFK : ∀ p ∈ st.todo_labels, ∃ l ∈ st.labels, l.id = p.2)
    (hnm : t.id ∉ accum.map TodoEntity.id) :
    foldGo accum (rowsForTodo st t ++ rest) = foldGo (accum ++ [entityFor st t]) rest := by
  unfold rowsForTodo
  cases hps : st.todo_labels.filter (fun p => p.1 = t.id) with
  | nil =>
    have hlab : dbLabelsOf st t.id = [] := by
      unfold dbLabelsOf
      rw [hps]
      rfl
    show foldGo accum ([⟨t.id, t.text, t.completed, none, none⟩] ++ rest) = _
    rw [List.singleton_append,
      foldGo_cons_new_nolabel accum _ rest hnm rfl]
    have hent : entityFor st t = ⟨t.id, t.text, t.completed, []⟩ := by
      unfold entityFor
      rw [hlab]
    rw [hent]
  | cons p ps =>
    have hsome : ∀ q ∈ p :: ps, ∃ lp, st.labels.find? (fun l => l.id = q.2) = some lp := by
      intro q hqmem
      have hq' : q ∈ st.todo_labels := List.mem_of_mem_filter (hps ▸ hqmem)
      obtain ⟨l, hlmem, hlid⟩ := hFK q hq'
      have hs : (st.labels.find? (fun lab => lab.id = q.2)).isSome := by
        rw [List.find?_isSome]
        exact ⟨l, hlmem, by simp [hlid]⟩
      exact Option.isSome_iff_exists.mp hs
    obtain ⟨lp, hlp⟩ := hsome p (List.mem_cons_self p ps)
    have hhead : joinedRowFor st t p = ⟨t.id, t.text, t.completed, some lp.id, some lp.name⟩ := by
      unfold joinedRowFor
      rw [hlp]
    show foldGo accum (List.map (joinedRowFor st t) (p :: ps) ++ rest) = _
    rw [List.map_cons, hhead, List.cons_append,
      foldGo_cons_new_some accum ⟨t.id, t.text, t.completed, some lp.id, some lp.name⟩ _
        ⟨lp.id, lp.name⟩ hnm rfl]
    have hcond : ∀ q ∈ ps.map (joinedRowFor st t),
        q.id = ((⟨t.id, t.text, t.completed, [(⟨lp.id, lp.name⟩ : Label)]⟩ : TodoEntity)).id ∧
          (rowLabel q).isSome := by
      intro q hqmem
      obtain ⟨q0, hq0, rfl⟩ := List.mem_map.mp hqmem
      obtain ⟨lq, hlq⟩ := hsome q0 (List.mem_cons_of_mem p hq0)
      refine ⟨joinedRowFor_id st t q0, ?_⟩
      rw [rowLabel_joinedRowFor st t q0 lq hlq]
      rfl
    rw [foldGo_absorb_block (ps.map (joinedRowFor st t)) accum _ rest hnm hcond]
    have hdbl : dbLabelsOf st t.id
        = lp :: ps.filterMap (fun q => st.labels.find? (fun l => l.id = q.2)) := by
      unfold dbLabelsOf
      rw [hps, List.filterMap_cons, hlp]
    have hent : (⟨t.id, t.text, t.completed,
        [(⟨lp.id, lp.name⟩ : Label)] ++ (ps.map (joinedRowFor st t)).filterMap rowLabel⟩
          : TodoEntity) = entityFor st t := by
      unfold entityFor
      rw [filterMap_rowLabel_joined st t ps (fun q h => hsome q (List.mem_cons_of_mem p h)),
        hdbl]
      rfl
    exact congrArg (fun E => foldGo (accum ++ [E]) rest) hent

/-- Folding the grouped join rows of distinct fresh todos appends their
hydrated entities in order, and always succeeds. -/
theorem foldGo_blocks (st : DbState)
    (hFK : ∀ p ∈ st.todo_labels, ∃ l ∈ st.labels, l.id = p.2) :
    ∀ (ts : List TodoFromRow) (accum : List TodoEntity),
      (∀ t ∈ ts, t.id ∉ accum.map TodoEntity.id) →
      (ts.map TodoFromRow.id).Nodup →
      foldGo accum (ts.flatMap (rowsForTodo st)) = some (accum ++ ts.map (entityFor st)) := by
  intro ts
  induction ts with
  | nil =>
    intro accum _ _
    simp [foldGo]
  | cons t ts ih =>
    intro accum hfresh hnd
    rw [List.flatMap_cons,
      foldGo_rowsForTodo st t accum _ hFK (hfresh t (List.mem_cons_self t ts))]
    simp only [List.map_cons, List.nodup_cons] at hnd
    have hfresh' : ∀ t' ∈ ts, t'.id ∉ (accum ++ [entityFor st t]).map TodoEntity.id := by
      intro t' ht'
      rw [List.map_append]
      simp only [List.mem_append, List.map_cons, List.map_nil, List.mem_singleton, not_or]
      refine ⟨hfresh t' (List.mem_cons_of_mem t ht'), ?_⟩
      intro hc
      have hc' : t'.id = t.id := hc
      exact hnd.1 (hc' ▸ List.mem_map_of_mem TodoFromRow.id ht')
    rw [ih (accum ++ [entityFor st t]) hfresh' hnd.2, List.append_assoc]
    rfl

/-- First-seen accumulation of a descending (`≥`-sorted) id sequence is
strictly descending. -/
theorem foldIds_gt_of_sorted :
    ∀ (l seen : List Int), seen.Nodup → seen.Pairwise (· > ·) →
      (∀ a ∈ seen, ∀ b ∈ l, b ≤ a) → l.Pairwise (· ≥ ·) →
      (foldIds seen l).Pairwise (· > ·) := by
  intro l
  induction l with
  | nil => intro seen _ hgt _ _; exact hgt
  | cons i rest ih =>
    intro seen hnd hgt hle hsort
    rw [foldIds_cons]
    rcases List.pairwise_cons.mp hsort with ⟨hi, hsort'⟩
    by_cases hm : i ∈ seen
    · rw [if_pos hm]
      exact ih seen hnd hgt (fun a ha b hb => hle a ha b (List.mem_cons_of_mem i hb)) hsort'
    · rw [if_neg hm]
      refine ih (seen ++ [i]) ?_ ?_ ?_ hsort'
      · rw [List.nodup_append]
        exact ⟨hnd, List.nodup_singleton i, fun a ha hb => by
          simp only [List.mem_singleton] at hb
          subst hb
          exact hm ha⟩
      · rw [List.pairwise_append]
        refine ⟨hgt, List.pairwise_singleton _ i, ?_⟩
        intro a ha b hb
        simp only [List.mem_singleton] at hb
        subst hb
        exact lt_of_le_of_ne (hle a ha b (List.mem_cons_self b rest))
          (fun he => hm (by rw [he]; exact ha))
      · intro a ha b hb
        rcases List.mem_append.mp ha with ha' | ha'
        · exact hle a ha' b (List.mem_cons_of_mem i hb)
        · simp only [List.mem_singleton] at ha'
          subst ha'
          exact hi b hb

/-- C8.  On a well-formed database, `all` succeeds and returns exactly one
fully hydrated entity per `todos` row, ordered by strictly descending id;
and in general, folding any `≥`-sorted (descending) row sequence that
succeeds yields output sorted by strictly descending id (first-seen order
of ids is preserved). -/
theorem claim_all_sorted_desc :
    (∀ st : DbState, DbWF st →
      ∃ out, db_all st = some out ∧
        (out.map TodoEntity.id).Pairwise (· > ·) ∧
        (∀ t ∈ st.todos, entityFor st t ∈ out) ∧
        (∀ e ∈ out, ∃ t ∈ st.todos, e = entityFor st t)) ∧
    (∀ (rows : List TodoWithLabelFromRow) (out : List TodoEntity),
      (rows.map TodoWithLabelFromRow.id).Pairwise (· ≥ ·) →
      fold_entities rows = some out →
      (out.map TodoEntity.id).Pairwise (· > ·)) := by
  constructor
  · intro st hwf
    obtain ⟨hnd, hFK⟩ := hwf
    have hperm : (sortTodosDesc st.todos).Perm st.todos :=
      List.perm_insertionSort descIdRel st.todos
    have hnds : ((sortTodosDesc st.todos).map TodoFromRow.id).Nodup :=
      ((hperm.map TodoFromRow.id).nodup_iff).mpr hnd
    refine ⟨(sortTodosDesc st.todos).map (entityFor st), ?_, ?_, ?_, ?_⟩
    · have hblocks := foldGo_blocks st hFK (sortTodosDesc st.todos) []
        (fun t _ => by simp) hnds
      show foldGo [] ((sortTodosDesc st.todos).flatMap (rowsForTodo st)) = _
      simpa using hblocks
    · rw [List.map_map]
      have hsorted : (sortTodosDesc st.todos).Pairwise descIdRel :=
        List.sorted_insertionSort descIdRel st.todos
      have hne : (sortTodosDesc st.todos).Pairwise (fun a b => a.id ≠ b.id) :=
        List.pairwise_map.mp hnds
      refine List.pairwise_map.mpr ?_
      exact (hsorted.and hne).imp (fun h => lt_of_le_of_ne h.1 (fun hh => h.2 hh.symm))
    · intro t ht
      exact List.mem_map_of_mem (entityFor st) ((List.mem_insertionSort descIdRel).mpr ht)
    · intro e he
      obtain ⟨t, ht, rfl⟩ := List.mem_map.mp he
      exact ⟨t, (List.mem_insertionSort descIdRel).mp ht, rfl⟩
  · intro rows out hsorted h
    rw [foldGo_ids rows [] out h]
    exact foldIds_gt_of_sorted _ [] List.nodup_nil List.Pairwise.nil
      (fun a ha => absurd ha (List.not_mem_nil a)) hsorted

theorem claim_all_sorted_desc_witness :
    (∃ out, db_all ⟨[⟨1, "a", false⟩, ⟨2, "b", true⟩], 3, [⟨7, "L"⟩], [(1, 7)]⟩ = some out ∧
      (out.map TodoEntity.id).Pairwise (· > ·) ∧
      (∀ t ∈ ([⟨1, "a", false⟩, ⟨2, "b", true⟩] : List TodoFromRow),
        entityFor ⟨[⟨1, "a", false⟩, ⟨2, "b", true⟩], 3, [⟨7, "L"⟩], [(1, 7)]⟩ t ∈ out) ∧
      (∀ e ∈ out, ∃ t ∈ ([⟨1, "a", false⟩, ⟨2, "b", true⟩] : List TodoFromRow),
        e = entityFor ⟨[⟨1, "a", false⟩, ⟨2, "b", true⟩], 3, [⟨7, "L"⟩], [(1, 7)]⟩ t)) ∧
    ((([⟨2, "b", true, []⟩, ⟨1, "a", false, []⟩] : List TodoEntity)).map
      TodoEntity.id).Pairwise (· > ·) :=
  ⟨claim_all_sorted_desc.1 ⟨[⟨1, "a", false⟩, ⟨2, "b", true⟩], 3, [⟨7, "L"⟩], [(1, 7)]⟩
      ⟨by decide, by decide⟩,
    claim_all_sorted_desc.2
      [⟨2, "b", true, none, none⟩, ⟨1, "a", false, none, none⟩]
      [⟨2, "b", true, []⟩, ⟨1, "a", false, []⟩] (by decide) rfl⟩

end TodoApp
